import Mathlib

/-
  Verification development for the smc-tools netlink client fragment
  (src/libnetlink.c): a shallow embedding of its operations
  (rtnl_open, rtnl_close, rtnl_dump, parse_rtattr, set_extension,
  sockdiag_send) over byte-level buffers, together with theorems about
  the behaviours the design document ascribes to them.

  Modelling conventions:
  - machine integers are Nat / Int with explicit bounds where C widths
    matter; the int lengths driven through NLMSG_NEXT / RTA_NEXT are
    modelled as Int because they can go negative in the source;
  - the 32 KiB receive buffer is a function Nat -> Nat from byte
    offsets to byte values; recvmsg overwrites a prefix of it and the
    remainder keeps its previous (stale) contents, exactly as in C;
  - multi-byte header fields are serialised little-endian; nothing in
    the verified properties depends on the byte order, only on the
    encode / decode pair matching;
  - loops whose C termination argument is "the tracked length shrinks
    by at least a header size each iteration" are written with an
    explicit fuel parameter; every entry point supplies fuel
    (length + 1), which the walk can never exhaust because each
    iteration consumes at least 16 (resp. 4) units of length.
-/

namespace SmcTools

/-! ## Byte-level primitives -/

/-- 4-byte alignment with unbounded arithmetic: (n + 3) & ~3. -/
def align4 (n : Nat) : Nat := (n + 3) / 4 * 4

/-- NLMSG_ALIGN on a 32-bit unsigned length: ((n + 3) mod 2^32) & ~3. -/
def nlmsg_align (n : Nat) : Nat := (n + 3) % 4294967296 / 4 * 4

/-- Little-endian encoding of a 16-bit value. -/
def u16le (n : Nat) : List Nat := [n % 256, n / 256 % 256]

/-- Little-endian encoding of a 32-bit value. -/
def u32le (n : Nat) : List Nat :=
  [n % 256, n / 256 % 256, n / 65536 % 256, n / 16777216 % 256]

/-- Read a 16-bit little-endian value from a byte store. -/
def readU16 (buf : Nat → Nat) (off : Nat) : Nat :=
  buf off + 256 * buf (off + 1)

/-- Read a 32-bit little-endian value from a byte store. -/
def readU32 (buf : Nat → Nat) (off : Nat) : Nat :=
  buf off + 256 * buf (off + 1) + 65536 * buf (off + 2) +
    16777216 * buf (off + 3)

/-- The n bytes of the store starting at off (what a handler pointed at
off can observe of a message of length n). -/
def readBytes (buf : Nat → Nat) (off n : Nat) : List Nat :=
  (List.range n).map (fun i => buf (off + i))

/-- recvmsg semantics on the fixed buffer: the received bytes overwrite
the front of the store, the rest keeps its previous contents. -/
def overwrite (old : Nat → Nat) (bytes : List Nat) : Nat → Nat :=
  fun i => if i < bytes.length then bytes.getD i 0 else old i

/-- The store holds exactly the given byte list starting at off. -/
def Agrees (buf : Nat → Nat) (off : Nat) (bytes : List Nat) : Prop :=
  ∀ i, i < bytes.length → buf (off + i) = bytes.getD i 0

/-! ## set_extension and sockdiag_send (request construction) -/

/-- set_extension from libnetlink.c: local_ext |= 1 << (ext - 1),
with the process-wide bitmask passed explicitly. -/
def set_extension (ext : Nat) (localExt : Nat) : Nat :=
  localExt ||| 2 ^ (ext - 1)

/-- Modelled from the spec: the fixed-layout diagnostic request of
struct smc_diag_req_v2 (its header smctools_common.h is not part of
src/); per the spec it carries the protocol family, the command, an
8-bit extension field and a full-width extension field.  The field
assignments themselves (PF_SMC = 43, cmd, (char)local_ext, local_ext)
are taken from sockdiag_send in src/libnetlink.c. -/
structure SmcDiagReq where
  diag_family : Nat
  cmd : Nat
  diag_ext : Nat
  cmd_ext : Nat
deriving DecidableEq

/-- The request as constructed by sockdiag_send: family PF_SMC (43),
the command opcode, the extension bitmask truncated to 8 bits in
diag_ext (the (char) cast) and in full width (C int) in cmd_ext. -/
def sockdiag_req (cmd : Nat) (localExt : Nat) : SmcDiagReq :=
  ⟨43, cmd, localExt % 256, localExt % 4294967296⟩

/-- sockdiag_send from libnetlink.c: build the request and transmit it;
sendOk abstracts the sendmsg outcome (on failure the fd is closed and
EXIT_FAILURE returned). -/
def sockdiag_send (cmd : Nat) (localExt : Nat) (sendOk : Bool) :
    SmcDiagReq × Nat :=
  (sockdiag_req cmd localExt, if sendOk then 0 else 1)

/-! ## rtnl_open and rtnl_close -/

/-- Outcomes of the system calls rtnl_open performs, supplied as an
environment so the control flow of rtnl_open is a pure function. -/
structure OpenEnv where
  socketRet : Int
  sndbufRet : Int
  rcvbufRet : Int
  bindRet : Int
  getsocknameRet : Int
  retAddrLen : Nat
  retFamily : Nat
  timeRet : Nat

/-- The rtnl_handle: fd and the sequence counter; seq is none while the
counter has never been initialised (C leaves it as garbage). -/
structure Handle where
  fd : Int
  seq : Option Nat
deriving DecidableEq

/-- Which system call a step of rtnl_open issues. -/
inductive SysCall where
  | socketCall
  | sndbufCall
  | rcvbufCall
  | bindCall
  | getsocknameCall
deriving DecidableEq

/-- The distinct failure points of rtnl_open (each prints its own
diagnostic in the source). -/
inductive OpenFail where
  | socketFail
  | sndbufFail
  | rcvbufFail
  | bindFail
  | getsocknameFail
  | addrLenFail
  | familyFail
deriving DecidableEq

/-- Result of rtnl_open: the returned status (0 or EXIT_FAILURE = 1),
the handle state afterwards, which step failed (none on success), and
the system calls that were attempted, in order. -/
structure OpenResult where
  ret : Nat
  rth : Handle
  failedAt : Option OpenFail
  calls : List SysCall
deriving DecidableEq

/-- rtnl_open from libnetlink.c: socket, SO_SNDBUF, SO_RCVBUF, bind,
getsockname, then validation of the returned address length
(sizeof(struct sockaddr_nl) = 12) and family (AF_NETLINK = 16); on
success the sequence counter is initialised from time(NULL). -/
def rtnl_open (env : OpenEnv) (rth : Handle) : OpenResult :=
  if env.socketRet < 0 then
    ⟨1, ⟨env.socketRet, rth.seq⟩, some .socketFail, [.socketCall]⟩
  else if env.sndbufRet < 0 then
    ⟨1, ⟨env.socketRet, rth.seq⟩, some .sndbufFail,
      [.socketCall, .sndbufCall]⟩
  else if env.rcvbufRet < 0 then
    ⟨1, ⟨env.socketRet, rth.seq⟩, some .rcvbufFail,
      [.socketCall, .sndbufCall, .rcvbufCall]⟩
  else if env.bindRet < 0 then
    ⟨1, ⟨env.socketRet, rth.seq⟩, some .bindFail,
      [.socketCall, .sndbufCall, .rcvbufCall, .bindCall]⟩
  else if env.getsocknameRet < 0 then
    ⟨1, ⟨env.socketRet, rth.seq⟩, some .getsocknameFail,
      [.socketCall, .sndbufCall, .rcvbufCall, .bindCall, .getsocknameCall]⟩
  else if env.retAddrLen ≠ 12 then
    ⟨1, ⟨env.socketRet, rth.seq⟩, some .addrLenFail,
      [.socketCall, .sndbufCall, .rcvbufCall, .bindCall, .getsocknameCall]⟩
  else if env.retFamily ≠ 16 then
    ⟨1, ⟨env.socketRet, rth.seq⟩, some .familyFail,
      [.socketCall, .sndbufCall, .rcvbufCall, .bindCall, .getsocknameCall]⟩
  else
    ⟨0, ⟨env.socketRet, some env.timeRet⟩, none,
      [.socketCall, .sndbufCall, .rcvbufCall, .bindCall, .getsocknameCall]⟩

/-- rtnl_close from libnetlink.c: close the descriptor if it is
non-negative and set it to -1; the Bool records whether close(2) was
actually issued. -/
def rtnl_close (rth : Handle) : Handle × Bool :=
  if 0 ≤ rth.fd then (⟨-1, rth.seq⟩, true) else (rth, false)

/-! ## Netlink messages and the dump receive loop -/

/-- An abstract netlink message: the declared header fields and the
payload bytes.  len is the declared nlmsg_len (header included). -/
structure NlMsg where
  len : Nat
  ty : Nat
  flags : Nat
  seq : Nat
  pid : Nat
  payload : List Nat
deriving DecidableEq

/-- Structurally well-formed message: the declared length covers the
16-byte header plus the payload, fits kernel field widths, and its
NLMSG_ALIGN does not wrap 32-bit arithmetic. -/
def NlMsg.WF (m : NlMsg) : Prop :=
  16 ≤ m.len ∧ m.len + 3 < 4294967296 ∧ m.ty < 65536 ∧
    m.payload.length = m.len - 16

instance (m : NlMsg) : Decidable m.WF := by
  unfold NlMsg.WF
  infer_instance

/-- Wire bytes of one message: struct nlmsghdr (nlmsg_len, nlmsg_type,
nlmsg_flags, nlmsg_seq, nlmsg_pid) followed by the payload. -/
def nlmsgBytes (m : NlMsg) : List Nat :=
  u32le m.len ++ u16le m.ty ++ u16le m.flags ++ u32le m.seq ++
    u32le m.pid ++ m.payload

/-- One message as laid out in a datagram: padded to NLMSG_ALIGN. -/
def nlmsgPadded (m : NlMsg) : List Nat :=
  nlmsgBytes m ++ List.replicate (nlmsg_align m.len - m.len) 0

/-- The byte stream of a whole datagram: consecutive aligned messages. -/
def datagramBytes (ms : List NlMsg) : List Nat :=
  (ms.map nlmsgPadded).flatten

/-- NLMSG_OK from linux/netlink.h on the modelled buffer: the remaining
int length holds a header, and the declared length is at least a header
and fits the remaining length. -/
def nlmsg_ok (buf : Nat → Nat) (h : Nat) (msglen : Int) : Bool :=
  decide (16 ≤ msglen) && decide (16 ≤ readU32 buf h) &&
    decide ((readU32 buf h : Int) ≤ msglen)

/-- How the message walk of one received datagram ended. -/
inductive WalkEnd where
  | exhausted
  | foundDone
  | errTrunc
  | errReport
  | fuelOut
deriving DecidableEq

/-- Outcome of walking one datagram: how it stopped, the byte images
passed to the handler in order, and the final value of the cursor h. -/
structure WalkOut where
  stop : WalkEnd
  handled : List (List Nat)
  hOff : Nat
deriving DecidableEq

/-- The while(NLMSG_OK(h, msglen)) loop of rtnl_dump.  NLMSG_DONE = 3
breaks the walk; NLMSG_ERROR = 2 aborts, distinguishing a payload too
short for struct nlmsgerr (nlmsg_len < NLMSG_LENGTH(20) = 36, reported
as truncation) from a full one (reported via perror); any other message
is handed to the handler, which can observe its nlmsg_len bytes; then
h and msglen advance by NLMSG_ALIGN(nlmsg_len).  The fuel argument only
drives the recursion: each iteration consumes at least 16 units of
msglen, so fuel = msglen.toNat + 1 can never be exhausted. -/
def nlmsgWalk (buf : Nat → Nat) : Nat → Nat → Int → WalkOut
  | 0, h, _ => ⟨.fuelOut, [], h⟩
  | fuel + 1, h, msglen =>
    if nlmsg_ok buf h msglen then
      if readU16 buf (h + 4) = 3 then ⟨.foundDone, [], h⟩
      else if readU16 buf (h + 4) = 2 then
        if readU32 buf h < 36 then ⟨.errTrunc, [], h⟩
        else ⟨.errReport, [], h⟩
      else
        let w := nlmsgWalk buf fuel (h + nlmsg_align (readU32 buf h))
          (msglen - (nlmsg_align (readU32 buf h) : Int))
        ⟨w.stop, readBytes buf h (readU32 buf h) :: w.handled, w.hOff⟩
    else ⟨.exhausted, [], h⟩

/-- One observable receive of the dump loop: a receive interrupted by a
signal or would-block (retried), a hard receive error, a zero-length
receive, or a datagram of bytes with the transport truncation flag. -/
inductive RecvEvent where
  | intr
  | fail (errno : Nat)
  | eof
  | data (bytes : List Nat) (trunc : Bool)
deriving DecidableEq

/-- Result of rtnl_dump, carrying the full sequence of byte images the
handler was invoked with.  errMsgReport carries the value perror
reports, i.e. the ambient errno, which the source never overwrites
from the message payload. -/
inductive DumpResult where
  | success (handled : List (List Nat))
  | errRecv (errno : Nat) (handled : List (List Nat))
  | errEof (handled : List (List Nat))
  | errMsgTrunc (handled : List (List Nat))
  | errMsgReport (reported : Nat) (handled : List (List Nat))
  | blocked (handled : List (List Nat))
deriving DecidableEq

/-- The receive loop of rtnl_dump over a stream of receive outcomes.
State: the 32 KiB buffer contents, the cursor h (an offset into the
buffer; note the source resets it to the buffer start only on the
!found_done path, not after MSG_TRUNC), the found_done flag, and the
handler invocations so far.  An exhausted event stream models the
blocking receive that never returns (the loop has no iteration bound). -/
def rtnl_dump_loop (amb : Nat) :
    List RecvEvent → (Nat → Nat) → Nat → Bool → List (List Nat) →
      DumpResult
  | [], _, _, _, acc => .blocked acc
  | .intr :: rest, buf, h, fd, acc => rtnl_dump_loop amb rest buf h fd acc
  | .fail e :: _, _, _, _, acc => .errRecv e acc
  | .eof :: _, _, _, _, acc => .errEof acc
  | .data bytes tr :: rest, buf, h, fd, acc =>
    let buf2 := overwrite buf bytes
    let w := nlmsgWalk buf2 (bytes.length + 1) h (bytes.length : Int)
    let acc2 := acc ++ w.handled
    match w.stop with
    | .errTrunc => .errMsgTrunc acc2
    | .errReport => .errMsgReport amb acc2
    | .foundDone =>
      if tr then rtnl_dump_loop amb rest buf2 w.hOff true acc2
      else .success acc2
    | .exhausted =>
      if tr then rtnl_dump_loop amb rest buf2 w.hOff fd acc2
      else if fd then .success acc2
      else rtnl_dump_loop amb rest buf2 0 fd acc2
    | .fuelOut =>
      if tr then rtnl_dump_loop amb rest buf2 w.hOff fd acc2
      else if fd then .success acc2
      else rtnl_dump_loop amb rest buf2 0 fd acc2

/-- rtnl_dump: zeroed buffer, cursor at the buffer start, found_done
clear.  amb is the ambient errno value perror would report. -/
def rtnl_dump (amb : Nat) (events : List RecvEvent) : DumpResult :=
  rtnl_dump_loop amb events (fun _ => 0) 0 false []

/-! ## parse_rtattr: the attribute walk -/

/-- An abstract attribute record: declared rta_len (header included),
rta_type and the value bytes. -/
structure RtAttr where
  len : Nat
  ty : Nat
  payload : List Nat
deriving DecidableEq

/-- Structurally valid record: rta_len covers the 4-byte header plus
the value and fits the unsigned short field, as does the type. -/
def RtAttr.WF (a : RtAttr) : Prop :=
  4 ≤ a.len ∧ a.len < 65536 ∧ a.ty < 65536 ∧ a.payload.length = a.len - 4

instance (a : RtAttr) : Decidable a.WF := by
  unfold RtAttr.WF
  infer_instance

/-- Wire bytes of one attribute: struct rtattr (rta_len, rta_type)
followed by the value. -/
def rtattrBytes (a : RtAttr) : List Nat :=
  u16le a.len ++ u16le a.ty ++ a.payload

/-- One attribute as laid out in a stream: padded to RTA_ALIGN. -/
def rtattrPadded (a : RtAttr) : List Nat :=
  rtattrBytes a ++ List.replicate (align4 a.len - a.len) 0

/-- The byte region of a whole attribute stream. -/
def attrsBytes (attrs : List RtAttr) : List Nat :=
  (attrs.map rtattrPadded).flatten

/-- RTA_OK from linux/rtnetlink.h: the remaining int length holds a
header, and the declared rta_len is at least a header and fits it. -/
def rta_ok (buf : Nat → Nat) (off : Nat) (len : Int) : Bool :=
  decide (4 ≤ len) && decide (4 ≤ readU16 buf off) &&
    decide ((readU16 buf off : Int) ≤ len)

/-- Result of parse_rtattr: the tb table (attribute type to the offset
of the recorded record, none = NULL) and whether the trailing deficit
diagnostic was emitted (the final int length was nonzero). -/
structure ParseOut where
  tb : Nat → Option Nat
  deficit : Bool

/-- The while(RTA_OK(rta, len)) loop of parse_rtattr: a record whose
type is within range and not yet recorded is stored (first occurrence
wins), then rta and len advance by RTA_ALIGN(rta_len); at loop exit the
deficit diagnostic fires iff len is nonzero (it may be negative).  As
with nlmsgWalk, fuel = len.toNat + 1 can never be exhausted because
each iteration consumes at least 4 units of len. -/
def rtaWalk (buf : Nat → Nat) (mx : Nat) :
    Nat → (Nat → Option Nat) → Nat → Int → ParseOut
  | 0, tb, _, len => ⟨tb, decide (len ≠ 0)⟩
  | fuel + 1, tb, off, len =>
    if rta_ok buf off len then
      rtaWalk buf mx fuel
        (if readU16 buf (off + 2) ≤ mx ∧ tb (readU16 buf (off + 2)) = none
          then (fun t => if t = readU16 buf (off + 2) then some off else tb t)
          else tb)
        (off + align4 (readU16 buf off))
        (len - (align4 (readU16 buf off) : Int))
    else ⟨tb, decide (len ≠ 0)⟩

/-- parse_rtattr from libnetlink.c on a byte region: tb is zeroed
(memset) and the walk starts at the region's base. -/
def parse_rtattr (mx : Nat) (bytes : List Nat) : ParseOut :=
  rtaWalk (overwrite (fun _ => 0) bytes) mx (bytes.length + 1)
    (fun _ => none) 0 (bytes.length : Int)

/-- Offset of the first record of a given type in an abstract attribute
list laid out from a given base offset (the reference mapping the
parser is compared against). -/
def firstOccAux : List RtAttr → Nat → Nat → Option Nat
  | [], _, _ => none
  | a :: rest, off, t =>
    if a.ty = t then some off else firstOccAux rest (off + align4 a.len) t

/-- The tb table after processing an abstract attribute list from a
given base offset (mirrors the stored-or-skipped step of the walk). -/
def updTb (mx : Nat) : List RtAttr → Nat → (Nat → Option Nat) →
    Nat → Option Nat
  | [], _, tb => tb
  | a :: rest, off, tb =>
    updTb mx rest (off + align4 a.len)
      (if a.ty ≤ mx ∧ tb a.ty = none
        then (fun t => if t = a.ty then some off else tb t) else tb)

/-! ## Concrete messages used in witnesses and counterexamples -/

/-- A 32-byte data message. -/
def cexM1 : NlMsg := ⟨32, 1, 0, 0, 0, List.replicate 16 9⟩

/-- A 40-byte data message whose payload happens to contain, at offset
32 of its datagram, bytes that parse as a 24-byte data message header
(it is what a stale cursor at offset 32 will misinterpret). -/
def cexM2 : NlMsg :=
  ⟨40, 1, 0, 0, 0, List.replicate 16 0 ++ [24, 0, 0, 0, 1, 0, 0, 0]⟩

/-- The done message terminating a dump. -/
def cexDone : NlMsg := ⟨16, 3, 0, 0, 0, []⟩

/-- The 24 bytes a stale cursor at offset 32 hands to the handler after
the truncated receive: 8 bytes from the middle of cexM2's payload
followed by 16 stale bytes of the buffer. -/
def cexGarbage : List Nat :=
  [24, 0, 0, 0, 1, 0, 0, 0] ++ List.replicate 16 0

/-- A full-size error message (nlmsg_len = 36) whose struct nlmsgerr
payload carries the error code 13. -/
def cexErrFull : NlMsg := ⟨36, 2, 0, 0, 0, u32le 13 ++ List.replicate 16 0⟩

/-- An error message too short to hold struct nlmsgerr
(nlmsg_len = 20 < 36). -/
def cexErrShort : NlMsg := ⟨20, 2, 0, 0, 0, [5, 0, 0, 0]⟩

/-- The error code carried in an error message's payload: the first
four bytes of the payload are the int error of struct nlmsgerr. -/
def carriedErrCode (m : NlMsg) : Nat :=
  m.payload.getD 0 0 + 256 * m.payload.getD 1 0 +
    65536 * m.payload.getD 2 0 + 16777216 * m.payload.getD 3 0

/-! ## Basic lemmas about alignment, serialisation and reads -/

theorem align4_ge (n : Nat) : n ≤ align4 n := by
  unfold align4
  have h1 := Nat.div_add_mod (n + 3) 4
  have h2 : (n + 3) % 4 < 4 := Nat.mod_lt _ (by norm_num)
  omega

theorem align4_lt (n : Nat) : align4 n < n + 4 := by
  unfold align4
  have h1 := Nat.div_add_mod (n + 3) 4
  omega

theorem nlmsg_align_eq (n : Nat) (h : n + 3 < 4294967296) :
    nlmsg_align n = align4 n := by
  unfold nlmsg_align align4
  rw [Nat.mod_eq_of_lt h]

theorem nlmsg_align_ge (n : Nat) (h : n + 3 < 4294967296) :
    n ≤ nlmsg_align n := by
  rw [nlmsg_align_eq n h]
  exact align4_ge n

theorem nlmsg_align_lt (n : Nat) (h : n + 3 < 4294967296) :
    nlmsg_align n < n + 4 := by
  rw [nlmsg_align_eq n h]
  exact align4_lt n

@[simp] theorem u16le_length (n : Nat) : (u16le n).length = 2 := rfl

@[simp] theorem u32le_length (n : Nat) : (u32le n).length = 4 := rfl

theorem agrees_append_left {buf : Nat → Nat} {off : Nat}
    {xs ys : List Nat} (h : Agrees buf off (xs ++ ys)) :
    Agrees buf off xs := by
  intro i hi
  have := h i (by simp; omega)
  rwa [List.getD_append _ _ _ _ hi] at this

theorem agrees_append_right {buf : Nat → Nat} {off : Nat}
    {xs ys : List Nat} (h : Agrees buf off (xs ++ ys)) :
    Agrees buf (off + xs.length) ys := by
  intro i hi
  have := h (xs.length + i) (by simp; omega)
  rw [List.getD_append_right _ _ _ _ (by omega)] at this
  simpa [Nat.add_assoc, Nat.add_sub_cancel_left] using this

theorem agrees_overwrite (buf : Nat → Nat) (bytes : List Nat) :
    Agrees (overwrite buf bytes) 0 bytes := by
  intro i hi
  simp [overwrite, hi]

theorem readU16_agrees {buf : Nat → Nat} {off n : Nat} {rest : List Nat}
    (hn : n < 65536) (h : Agrees buf off (u16le n ++ rest)) :
    readU16 buf off = n := by
  have h0 := h 0 (by simp)
  have h1 := h 1 (by simp; omega)
  simp [u16le] at h0 h1
  unfold readU16
  rw [h0, h1]
  omega

theorem readU32_agrees {buf : Nat → Nat} {off n : Nat} {rest : List Nat}
    (hn : n < 4294967296) (h : Agrees buf off (u32le n ++ rest)) :
    readU32 buf off = n := by
  have h0 := h 0 (by simp)
  have h1 := h 1 (by simp; omega)
  have h2 := h 2 (by simp; omega)
  have h3 := h 3 (by simp; omega)
  simp [u32le] at h0 h1 h2 h3
  unfold readU32
  rw [h0, h1, h2, h3]
  omega

theorem readBytes_agrees {buf : Nat → Nat} {off : Nat} {bytes : List Nat}
    (h : Agrees buf off bytes) : readBytes buf off bytes.length = bytes := by
  apply List.ext_getElem
  · simp [readBytes]
  · intro i h1 h2
    simp only [readBytes, List.getElem_map, List.getElem_range]
    rw [h i h2, List.getD_eq_getElem _ _ h2]

theorem nlmsgBytes_length {m : NlMsg} (h : m.WF) :
    (nlmsgBytes m).length = m.len := by
  obtain ⟨h1, _, _, h4⟩ := h
  simp [nlmsgBytes, h4]
  omega

theorem nlmsgPadded_length {m : NlMsg} (h : m.WF) :
    (nlmsgPadded m).length = nlmsg_align m.len := by
  have h1 := nlmsg_align_ge m.len h.2.1
  simp [nlmsgPadded, nlmsgBytes_length h]
  omega

@[simp] theorem datagramBytes_nil : datagramBytes [] = [] := rfl

theorem datagramBytes_cons (m : NlMsg) (ms : List NlMsg) :
    datagramBytes (m :: ms) = nlmsgPadded m ++ datagramBytes ms := by
  simp [datagramBytes]

theorem datagramBytes_append (xs ys : List NlMsg) :
    datagramBytes (xs ++ ys) = datagramBytes xs ++ datagramBytes ys := by
  simp [datagramBytes]

/-! ## Lemmas about the message walk of rtnl_dump -/

theorem nlmsg_ok_false {buf : Nat → Nat} {off : Nat} {msglen : Int}
    (h : msglen < 16) : nlmsg_ok buf off msglen = false := by
  unfold nlmsg_ok
  rw [decide_eq_false (by omega : ¬ (16 ≤ msglen))]
  simp

/-- A remaining length below a header size ends the walk at once. -/
theorem nlmsgWalk_small {buf : Nat → Nat} {off : Nat} {msglen : Int}
    {fuel : Nat} (hf : 0 < fuel) (h : msglen < 16) :
    nlmsgWalk buf fuel off msglen = ⟨.exhausted, [], off⟩ := by
  obtain ⟨f, rfl⟩ : ∃ f, fuel = f + 1 := ⟨fuel - 1, by omega⟩
  rw [nlmsgWalk, if_neg]
  rw [nlmsg_ok_false h]
  simp

/-- A done message (NLMSG_DONE = 3) at the cursor ends the walk with
found_done and without touching the handler. -/
theorem nlmsgWalk_done_head {buf : Nat → Nat} {off : Nat} {msglen : Int}
    {fuel : Nat} {d : NlMsg} {rest : List Nat}
    (hf : 0 < fuel) (h16 : 16 ≤ d.len) (h32 : d.len + 3 < 4294967296)
    (htyw : d.ty < 65536) (hty : d.ty = 3)
    (hA : Agrees buf off (nlmsgBytes d ++ rest))
    (hlen : (d.len : Int) ≤ msglen) :
    nlmsgWalk buf fuel off msglen = ⟨.foundDone, [], off⟩ := by
  obtain ⟨f, rfl⟩ : ∃ f, fuel = f + 1 := ⟨fuel - 1, by omega⟩
  have hA1 : Agrees buf off (u32le d.len ++ (u16le d.ty ++ (u16le d.flags
      ++ (u32le d.seq ++ (u32le d.pid ++ (d.payload ++ rest)))))) := by
    simpa [nlmsgBytes, List.append_assoc] using hA
  have hr32 : readU32 buf off = d.len := readU32_agrees (by omega) hA1
  have hA2 := agrees_append_right hA1
  rw [u32le_length] at hA2
  have hr16 : readU16 buf (off + 4) = d.ty := readU16_agrees htyw hA2
  have hok : nlmsg_ok buf off msglen = true := by
    unfold nlmsg_ok
    rw [hr32]
    simp only [Bool.and_eq_true, decide_eq_true_eq]
    exact ⟨⟨by omega, by omega⟩, hlen⟩
  rw [nlmsgWalk, if_pos hok, hr16, if_pos hty]

/-- An error message (NLMSG_ERROR = 2) at the cursor aborts the walk,
distinguishing a truncated error (nlmsg_len < 36) from a full one. -/
theorem nlmsgWalk_err_head {buf : Nat → Nat} {off : Nat} {msglen : Int}
    {fuel : Nat} {e : NlMsg} {rest : List Nat}
    (hf : 0 < fuel) (h16 : 16 ≤ e.len) (h32 : e.len + 3 < 4294967296)
    (htyw : e.ty < 65536) (hty : e.ty = 2)
    (hA : Agrees buf off (nlmsgBytes e ++ rest))
    (hlen : (e.len : Int) ≤ msglen) :
    nlmsgWalk buf fuel off msglen =
      ⟨if e.len < 36 then WalkEnd.errTrunc else WalkEnd.errReport,
        [], off⟩ := by
  obtain ⟨f, rfl⟩ : ∃ f, fuel = f + 1 := ⟨fuel - 1, by omega⟩
  have hA1 : Agrees buf off (u32le e.len ++ (u16le e.ty ++ (u16le e.flags
      ++ (u32le e.seq ++ (u32le e.pid ++ (e.payload ++ rest)))))) := by
    simpa [nlmsgBytes, List.append_assoc] using hA
  have hr32 : readU32 buf off = e.len := readU32_agrees (by omega) hA1
  have hA2 := agrees_append_right hA1
  rw [u32le_length] at hA2
  have hr16 : readU16 buf (off + 4) = e.ty := readU16_agrees htyw hA2
  have hok : nlmsg_ok buf off msglen = true := by
    unfold nlmsg_ok
    rw [hr32]
    simp only [Bool.and_eq_true, decide_eq_true_eq]
    exact ⟨⟨by omega, by omega⟩, hlen⟩
  rw [nlmsgWalk, if_pos hok, hr16, hty]
  rw [if_neg (by norm_num), if_pos rfl, hr32]
  split_ifs <;> rfl

/-- Master lemma: walking a run of well-formed, non-done, non-error
messages hands each of them (exactly its nlmsg_len bytes) to the
handler in order, then continues on the suffix; the continuation's
outcome is propagated. -/
theorem nlmsgWalk_clean (buf : Nat → Nat) (S : WalkEnd)
    (suffix : List Nat) (ms : List NlMsg) :
    ∀ off : Nat,
      (∀ m ∈ ms, m.WF ∧ m.ty ≠ 2 ∧ m.ty ≠ 3) →
      Agrees buf off (datagramBytes ms ++ suffix) →
      (∀ fuel2, suffix.length < fuel2 →
          nlmsgWalk buf fuel2 (off + (datagramBytes ms).length)
            (suffix.length : Int)
            = ⟨S, [], off + (datagramBytes ms).length⟩) →
      ∀ fuel, (datagramBytes ms ++ suffix).length < fuel →
        nlmsgWalk buf fuel off ((datagramBytes ms ++ suffix).length : Int)
          = ⟨S, ms.map nlmsgBytes, off + (datagramBytes ms).length⟩ := by
  induction ms with
  | nil =>
    intro off hWF hA hcont fuel hfuel
    simpa using hcont fuel (by simpa using hfuel)
  | cons m ms ih =>
    intro off hWF hA hcont fuel hfuel
    obtain ⟨hm, hty2, hty3⟩ := hWF m (List.mem_cons_self m ms)
    have hWF' : ∀ x ∈ ms, x.WF ∧ x.ty ≠ 2 ∧ x.ty ≠ 3 :=
      fun x hx => hWF x (List.mem_cons_of_mem m hx)
    obtain ⟨hl16, hl32, hlty, hlpl⟩ := hm
    have halign_ge : m.len ≤ nlmsg_align m.len := nlmsg_align_ge _ hl32
    have halign_lt : nlmsg_align m.len < m.len + 4 := nlmsg_align_lt _ hl32
    have hpadlen : (nlmsgPadded m).length = nlmsg_align m.len :=
      nlmsgPadded_length ⟨hl16, hl32, hlty, hlpl⟩
    have hblen : (nlmsgBytes m).length = m.len :=
      nlmsgBytes_length ⟨hl16, hl32, hlty, hlpl⟩
    rw [datagramBytes_cons, List.append_assoc] at hA hfuel ⊢
    have hL : (nlmsgPadded m ++ (datagramBytes ms ++ suffix)).length
        = nlmsg_align m.len + (datagramBytes ms ++ suffix).length := by
      rw [List.length_append, hpadlen]
    have hA1 : Agrees buf off (u32le m.len ++ (u16le m.ty ++ (u16le m.flags
        ++ (u32le m.seq ++ (u32le m.pid ++ (m.payload
        ++ (List.replicate (nlmsg_align m.len - m.len) 0
        ++ (datagramBytes ms ++ suffix)))))))) := by
      simpa [nlmsgPadded, nlmsgBytes, List.append_assoc] using hA
    have hr32 : readU32 buf off = m.len := readU32_agrees (by omega) hA1
    have hA2 := agrees_append_right hA1
    rw [u32le_length] at hA2
    have hr16 : readU16 buf (off + 4) = m.ty := readU16_agrees hlty hA2
    have hAfull : Agrees buf off (nlmsgBytes m
        ++ (List.replicate (nlmsg_align m.len - m.len) 0
          ++ (datagramBytes ms ++ suffix))) := by
      simpa [nlmsgPadded, List.append_assoc] using hA
    have hAmsg : Agrees buf off (nlmsgBytes m) := agrees_append_left hAfull
    have hread : readBytes buf off m.len = nlmsgBytes m := by
      have h := readBytes_agrees hAmsg
      rwa [hblen] at h
    have hAnext : Agrees buf (off + nlmsg_align m.len)
        (datagramBytes ms ++ suffix) := by
      have h := agrees_append_right hA
      rwa [hpadlen] at h
    obtain ⟨f, rfl⟩ : ∃ f, fuel = f + 1 := ⟨fuel - 1, by omega⟩
    have hok : nlmsg_ok buf off
        (((nlmsgPadded m ++ (datagramBytes ms ++ suffix)).length : Nat) : Int)
        = true := by
      unfold nlmsg_ok
      rw [hr32]
      simp only [Bool.and_eq_true, decide_eq_true_eq]
      refine ⟨⟨?_, by omega⟩, ?_⟩
      · exact_mod_cast Nat.le_trans (by omega)
          (Nat.le_of_eq hL.symm)
      · exact_mod_cast Nat.le_trans (Nat.le_trans halign_ge
          (Nat.le_add_right _ _)) (Nat.le_of_eq hL.symm)
    have hcast : (((nlmsgPadded m ++ (datagramBytes ms ++ suffix)).length
          : Nat) : Int) - (nlmsg_align m.len : Int)
        = (((datagramBytes ms ++ suffix).length : Nat) : Int) := by
      rw [hL]
      push_cast
      ring
    have hcont' : ∀ fuel2, suffix.length < fuel2 →
        nlmsgWalk buf fuel2
          ((off + nlmsg_align m.len) + (datagramBytes ms).length)
          (suffix.length : Int)
          = ⟨S, [], (off + nlmsg_align m.len) + (datagramBytes ms).length⟩ := by
      intro fuel2 h2
      have h := hcont fuel2 h2
      rw [datagramBytes_cons, List.length_append, hpadlen,
        ← Nat.add_assoc] at h
      exact h
    have hrec := ih (off + nlmsg_align m.len) hWF' hAnext hcont' f
      (by omega)
    rw [nlmsgWalk, if_pos hok, hr16, if_neg hty3, if_neg hty2, hr32, hread]
    simp only [hcast, hrec]
    simp [List.length_append, hpadlen, Nat.add_assoc]

/-- Walking a freshly received datagram of clean messages followed by a
done message (and arbitrary further messages) from the buffer start:
the clean prefix is handled, the walk stops at the done message. -/
theorem nlmsgWalk_datagram_done (buf : Nat → Nat) (pre post : List NlMsg)
    (d : NlMsg)
    (hpre : ∀ m ∈ pre, m.WF ∧ m.ty ≠ 2 ∧ m.ty ≠ 3)
    (hd : d.WF) (hty : d.ty = 3) :
    nlmsgWalk (overwrite buf (datagramBytes (pre ++ d :: post)))
      ((datagramBytes (pre ++ d :: post)).length + 1) 0
      ((datagramBytes (pre ++ d :: post)).length : Int)
      = ⟨.foundDone, pre.map nlmsgBytes, (datagramBytes pre).length⟩ := by
  have hsplit : datagramBytes (pre ++ d :: post)
      = datagramBytes pre ++ (nlmsgPadded d ++ datagramBytes post) := by
    rw [datagramBytes_append, datagramBytes_cons]
  have hA : Agrees (overwrite buf (datagramBytes (pre ++ d :: post))) 0
      (datagramBytes pre ++ (nlmsgPadded d ++ datagramBytes post)) := by
    rw [← hsplit]
    exact agrees_overwrite _ _
  have hpadlen : (nlmsgPadded d).length = nlmsg_align d.len :=
    nlmsgPadded_length hd
  have hcont : ∀ fuel2, (nlmsgPadded d ++ datagramBytes post).length < fuel2 →
      nlmsgWalk (overwrite buf (datagramBytes (pre ++ d :: post))) fuel2
        (0 + (datagramBytes pre).length)
        (((nlmsgPadded d ++ datagramBytes post).length : Nat) : Int)
      = ⟨.foundDone, [], 0 + (datagramBytes pre).length⟩ := by
    intro fuel2 hf2
    have hA2 := agrees_append_right hA
    have hA3 : Agrees (overwrite buf (datagramBytes (pre ++ d :: post)))
        (0 + (datagramBytes pre).length)
        (nlmsgBytes d ++ (List.replicate (nlmsg_align d.len - d.len) 0
          ++ datagramBytes post)) := by
      simpa [nlmsgPadded, List.append_assoc] using hA2
    apply nlmsgWalk_done_head (by omega) hd.1 hd.2.1 hd.2.2.1 hty hA3
    have : d.len ≤ (nlmsgPadded d ++ datagramBytes post).length := by
      rw [List.length_append, hpadlen]
      have := nlmsg_align_ge d.len hd.2.1
      omega
    exact_mod_cast this
  have hmain := nlmsgWalk_clean
    (overwrite buf (datagramBytes (pre ++ d :: post))) .foundDone
    (nlmsgPadded d ++ datagramBytes post) pre 0 hpre hA hcont
    ((datagramBytes pre ++ (nlmsgPadded d ++ datagramBytes post)).length + 1)
    (by omega)
  have hlen2 : (datagramBytes (pre ++ d :: post)).length
      = (datagramBytes pre ++ (nlmsgPadded d ++ datagramBytes post)).length := by
    rw [hsplit]
  rw [hlen2]
  simpa using hmain

/-- Walking a freshly received datagram of clean messages followed by
an error message: the clean prefix is handled, then the walk aborts,
reporting truncation iff the error message is shorter than
NLMSG_LENGTH(sizeof(struct nlmsgerr)) = 36. -/
theorem nlmsgWalk_datagram_err (buf : Nat → Nat) (pre post : List NlMsg)
    (e : NlMsg)
    (hpre : ∀ m ∈ pre, m.WF ∧ m.ty ≠ 2 ∧ m.ty ≠ 3)
    (he : e.WF) (hty : e.ty = 2) :
    nlmsgWalk (overwrite buf (datagramBytes (pre ++ e :: post)))
      ((datagramBytes (pre ++ e :: post)).length + 1) 0
      ((datagramBytes (pre ++ e :: post)).length : Int)
      = ⟨if e.len < 36 then WalkEnd.errTrunc else WalkEnd.errReport,
          pre.map nlmsgBytes, (datagramBytes pre).length⟩ := by
  have hsplit : datagramBytes (pre ++ e :: post)
      = datagramBytes pre ++ (nlmsgPadded e ++ datagramBytes post) := by
    rw [datagramBytes_append, datagramBytes_cons]
  have hA : Agrees (overwrite buf (datagramBytes (pre ++ e :: post))) 0
      (datagramBytes pre ++ (nlmsgPadded e ++ datagramBytes post)) := by
    rw [← hsplit]
    exact agrees_overwrite _ _
  have hpadlen : (nlmsgPadded e).length = nlmsg_align e.len :=
    nlmsgPadded_length he
  have hcont : ∀ fuel2, (nlmsgPadded e ++ datagramBytes post).length < fuel2 →
      nlmsgWalk (overwrite buf (datagramBytes (pre ++ e :: post))) fuel2
        (0 + (datagramBytes pre).length)
        (((nlmsgPadded e ++ datagramBytes post).length : Nat) : Int)
      = ⟨if e.len < 36 then WalkEnd.errTrunc else WalkEnd.errReport,
          [], 0 + (datagramBytes pre).length⟩ := by
    intro fuel2 hf2
    have hA2 := agrees_append_right hA
    have hA3 : Agrees (overwrite buf (datagramBytes (pre ++ e :: post)))
        (0 + (datagramBytes pre).length)
        (nlmsgBytes e ++ (List.replicate (nlmsg_align e.len - e.len) 0
          ++ datagramBytes post)) := by
      simpa [nlmsgPadded, List.append_assoc] using hA2
    apply nlmsgWalk_err_head (by omega) he.1 he.2.1 he.2.2.1 hty hA3
    have : e.len ≤ (nlmsgPadded e ++ datagramBytes post).length := by
      rw [List.length_append, hpadlen]
      have := nlmsg_align_ge e.len he.2.1
      omega
    exact_mod_cast this
  have hmain := nlmsgWalk_clean
    (overwrite buf (datagramBytes (pre ++ e :: post)))
    (if e.len < 36 then WalkEnd.errTrunc else WalkEnd.errReport)
    (nlmsgPadded e ++ datagramBytes post) pre 0 hpre hA hcont
    ((datagramBytes pre ++ (nlmsgPadded e ++ datagramBytes post)).length + 1)
    (by omega)
  have hlen2 : (datagramBytes (pre ++ e :: post)).length
      = (datagramBytes pre ++ (nlmsgPadded e ++ datagramBytes post)).length := by
    rw [hsplit]
  rw [hlen2]
  simpa using hmain

/-- Walking a freshly received datagram consisting only of clean
messages: all of them are handled and the walk runs the buffer dry. -/
theorem nlmsgWalk_datagram_clean (buf : Nat → Nat) (ms : List NlMsg)
    (hms : ∀ m ∈ ms, m.WF ∧ m.ty ≠ 2 ∧ m.ty ≠ 3) :
    nlmsgWalk (overwrite buf (datagramBytes ms))
      ((datagramBytes ms).length + 1) 0
      ((datagramBytes ms).length : Int)
      = ⟨.exhausted, ms.map nlmsgBytes, (datagramBytes ms).length⟩ := by
  have hA : Agrees (overwrite buf (datagramBytes ms)) 0
      (datagramBytes ms ++ []) := by
    rw [List.append_nil]
    exact agrees_overwrite _ _
  have hcont : ∀ fuel2, ([] : List Nat).length < fuel2 →
      nlmsgWalk (overwrite buf (datagramBytes ms)) fuel2
        (0 + (datagramBytes ms).length) ((([] : List Nat).length : Nat) : Int)
      = ⟨.exhausted, [], 0 + (datagramBytes ms).length⟩ := by
    intro fuel2 hf2
    exact nlmsgWalk_small (by omega) (by norm_num)
  have hmain := nlmsgWalk_clean (overwrite buf (datagramBytes ms))
    .exhausted [] ms 0 hms hA hcont
    ((datagramBytes ms ++ []).length + 1) (by omega)
  simpa using hmain

/-- Processing a run of untruncated datagrams of clean messages: each
message is delivered in order and the loop proceeds to the remaining
events with the cursor reset and found_done still clear. -/
theorem rtnl_dump_loop_clean (amb : Nat) (dss : List (List NlMsg)) :
    ∀ rest : List RecvEvent, ∀ buf : Nat → Nat, ∀ acc : List (List Nat),
      (∀ ms ∈ dss, ∀ m ∈ ms, m.WF ∧ m.ty ≠ 2 ∧ m.ty ≠ 3) →
      ∃ buf2,
        rtnl_dump_loop amb
          (dss.map (fun ms => RecvEvent.data (datagramBytes ms) false)
            ++ rest) buf 0 false acc
        = rtnl_dump_loop amb rest buf2 0 false
            (acc ++ dss.flatten.map nlmsgBytes) := by
  induction dss with
  | nil =>
    intro rest buf acc _
    exact ⟨buf, by simp⟩
  | cons ms dss ih =>
    intro rest buf acc hWF
    have hms : ∀ m ∈ ms, m.WF ∧ m.ty ≠ 2 ∧ m.ty ≠ 3 :=
      hWF ms (List.mem_cons_self ms dss)
    have hWF' : ∀ xs ∈ dss, ∀ m ∈ xs, m.WF ∧ m.ty ≠ 2 ∧ m.ty ≠ 3 :=
      fun xs hxs => hWF xs (List.mem_cons_of_mem ms hxs)
    obtain ⟨buf3, hrec⟩ := ih rest (overwrite buf (datagramBytes ms))
      (acc ++ ms.map nlmsgBytes) hWF'
    refine ⟨buf3, ?_⟩
    rw [List.map_cons, List.cons_append, rtnl_dump_loop]
    simp only [nlmsgWalk_datagram_clean buf ms hms]
    simpa [List.append_assoc] using hrec

/-! ## Claim theorems C6 - C9 -/

/-- C6: set_extension with index n sets bit n-1 of the extension
bitmask; calling it with indices 1 and 3 (starting from the zero mask)
yields exactly bits 0 and 2, i.e. the value 5, and a subsequently built
diagnostic request carries that exact bitmask in both the 8-bit
diag_ext field and the full-width cmd_ext field. -/
theorem set_extension_accumulates_into_request :
    set_extension 3 (set_extension 1 0) = 5
    ∧ Nat.testBit (set_extension 3 (set_extension 1 0)) 0 = true
    ∧ Nat.testBit (set_extension 3 (set_extension 1 0)) 1 = false
    ∧ Nat.testBit (set_extension 3 (set_extension 1 0)) 2 = true
    ∧ (∀ k, 3 ≤ k → Nat.testBit (set_extension 3 (set_extension 1 0)) k = false)
    ∧ ∀ cmd sendOk,
        (sockdiag_send cmd (set_extension 3 (set_extension 1 0)) sendOk).1.diag_ext = 5
        ∧ (sockdiag_send cmd (set_extension 3 (set_extension 1 0)) sendOk).1.cmd_ext = 5 := by
  refine ⟨by decide, by decide, by decide, by decide, ?_, ?_⟩
  · intro k hk
    have h5 : set_extension 3 (set_extension 1 0) = 5 := by decide
    rw [h5]
    exact Nat.testBit_lt_two_pow (lt_of_lt_of_le (by norm_num)
      (Nat.pow_le_pow_right (by norm_num) hk))
  · intro cmd sendOk
    exact ⟨rfl, rfl⟩

/-- Witness for C6: the accumulated mask has no bit at index 5, and a
concrete request carries the mask in both fields. -/
theorem set_extension_accumulates_into_request_witness :
    Nat.testBit (set_extension 3 (set_extension 1 0)) 5 = false
    ∧ (sockdiag_send 2 (set_extension 3 (set_extension 1 0)) true).1.diag_ext = 5
    ∧ (sockdiag_send 2 (set_extension 3 (set_extension 1 0)) true).1.cmd_ext = 5 :=
  ⟨set_extension_accumulates_into_request.2.2.2.2.1 5 (by norm_num),
    (set_extension_accumulates_into_request.2.2.2.2.2 2 true).1,
    (set_extension_accumulates_into_request.2.2.2.2.2 2 true).2⟩

/-- C7: whenever any sub-step of rtnl_open fails (socket creation,
either buffer-size setsockopt, the bind, or the address validation via
getsockname / length / family), rtnl_open returns the uniform failure
status EXIT_FAILURE = 1 and the handle's sequence counter is never
initialised, so no fully set-up handle is produced. -/
theorem rtnl_open_uniform_failure (env : OpenEnv) (rth : Handle)
    (w : OpenFail) (h : (rtnl_open env rth).failedAt = some w) :
    (rtnl_open env rth).ret = 1 ∧ (rtnl_open env rth).rth.seq = rth.seq := by
  unfold rtnl_open at h ⊢
  split_ifs at h ⊢ <;> simp_all

/-- Witness for C7: a concrete environment whose bind fails. -/
theorem rtnl_open_uniform_failure_witness :
    (rtnl_open ⟨3, 0, 0, -1, 0, 12, 16, 77⟩ ⟨-1, none⟩).ret = 1
    ∧ (rtnl_open ⟨3, 0, 0, -1, 0, 12, 16, 77⟩ ⟨-1, none⟩).rth.seq = none :=
  rtnl_open_uniform_failure ⟨3, 0, 0, -1, 0, 12, 16, 77⟩ ⟨-1, none⟩
    OpenFail.bindFail (by decide)

/-- C8: if the socket(2) call itself fails, rtnl_open returns the
failure status having attempted no further system call: no buffer
configuration and no bind. -/
theorem rtnl_open_socket_fail_stops (env : OpenEnv) (rth : Handle)
    (h : env.socketRet < 0) :
    (rtnl_open env rth).ret = 1
    ∧ (rtnl_open env rth).calls = [SysCall.socketCall] := by
  unfold rtnl_open
  rw [if_pos h]
  exact ⟨rfl, rfl⟩

/-- Witness for C8: socket(2) returning -1. -/
theorem rtnl_open_socket_fail_stops_witness :
    (rtnl_open ⟨-1, 0, 0, 0, 0, 12, 16, 77⟩ ⟨-1, none⟩).ret = 1
    ∧ (rtnl_open ⟨-1, 0, 0, 0, 0, 12, 16, 77⟩ ⟨-1, none⟩).calls
        = [SysCall.socketCall] :=
  rtnl_open_socket_fail_stops ⟨-1, 0, 0, 0, 0, 12, 16, 77⟩ ⟨-1, none⟩
    (by decide)

/-- C9: rtnl_close issues close(2) exactly when the descriptor is
currently non-negative, afterwards the descriptor is -1 (invalid) in
that case and unchanged otherwise, and the operation is idempotent: a
second close is a no-op (no close(2) issued) and leaves the handle in
the same state as after the first. -/
theorem rtnl_close_spec (rth : Handle) :
    ((rtnl_close rth).2 = true ↔ 0 ≤ rth.fd)
    ∧ (rtnl_close rth).1.fd = (if 0 ≤ rth.fd then -1 else rth.fd)
    ∧ rtnl_close (rtnl_close rth).1 = ((rtnl_close rth).1, false) := by
  by_cases h : 0 ≤ rth.fd
  · have h2 : ¬ (0 : Int) ≤ -1 := by norm_num
    simp [rtnl_close, h, h2]
  · simp [rtnl_close, h]

/-- Witness for C9: closing an open handle closes the descriptor, and a
second close is a no-op. -/
theorem rtnl_close_spec_witness :
    (rtnl_close ⟨5, none⟩).2 = true
    ∧ rtnl_close (rtnl_close ⟨5, none⟩).1 = ((rtnl_close ⟨5, none⟩).1, false) := by
  have h := rtnl_close_spec ⟨5, none⟩
  exact ⟨h.1.mpr (by norm_num), h.2.2⟩

/-! ## Claim theorems C1 - C3 and C10 -/

/-- C1: for every stream of untruncated datagrams of well-formed data
messages, terminated by a done message at the end of the final
datagram, rtnl_dump invokes the handler exactly once per message that
is neither done nor error, in receipt order (each invocation observing
exactly that message's nlmsg_len bytes), and then returns success. -/
theorem rtnl_dump_clean_stream (amb : Nat) (dss : List (List NlMsg))
    (lastMs : List NlMsg) (d : NlMsg)
    (h1 : ∀ ms ∈ dss, ∀ m ∈ ms, m.WF ∧ m.ty ≠ 2 ∧ m.ty ≠ 3)
    (h2 : ∀ m ∈ lastMs, m.WF ∧ m.ty ≠ 2 ∧ m.ty ≠ 3)
    (h3 : d.WF) (h4 : d.ty = 3) :
    rtnl_dump amb
      (dss.map (fun ms => RecvEvent.data (datagramBytes ms) false)
        ++ [RecvEvent.data (datagramBytes (lastMs ++ [d])) false])
      = DumpResult.success ((dss.flatten ++ lastMs).map nlmsgBytes) := by
  unfold rtnl_dump
  obtain ⟨buf2, hloop⟩ := rtnl_dump_loop_clean amb dss
    [RecvEvent.data (datagramBytes (lastMs ++ [d])) false] (fun _ => 0) [] h1
  rw [hloop, rtnl_dump_loop]
  simp only [nlmsgWalk_datagram_done buf2 lastMs [] d h2 h3 h4]
  simp [List.map_append]

/-- Witness for C1: one datagram holding one data message and the done
marker delivers exactly that message and succeeds. -/
theorem rtnl_dump_clean_stream_witness :
    rtnl_dump 0 [RecvEvent.data (datagramBytes [cexM1, cexDone]) false]
      = DumpResult.success [nlmsgBytes cexM1] := by
  have h := rtnl_dump_clean_stream 0 [] [cexM1] cexDone
    (by decide) (by decide) (by decide) (by decide)
  simpa using h

/-- C10: within a single received datagram, the walk stops at the first
done message, so the handler is never invoked for any message located
after the done marker in the same datagram. -/
theorem rtnl_dump_stops_at_done (amb : Nat) (pre post : List NlMsg)
    (d : NlMsg)
    (h1 : ∀ m ∈ pre, m.WF ∧ m.ty ≠ 2 ∧ m.ty ≠ 3)
    (h2 : d.WF) (h3 : d.ty = 3) :
    rtnl_dump amb [RecvEvent.data (datagramBytes (pre ++ d :: post)) false]
      = DumpResult.success (pre.map nlmsgBytes) := by
  unfold rtnl_dump
  rw [rtnl_dump_loop]
  simp only [nlmsgWalk_datagram_done (fun _ => 0) pre post d h1 h2 h3]
  simp

/-- Witness for C10: a message after the done marker is not handled. -/
theorem rtnl_dump_stops_at_done_witness :
    rtnl_dump 0 [RecvEvent.data (datagramBytes [cexM1, cexDone, cexM2]) false]
      = DumpResult.success [nlmsgBytes cexM1] := by
  have h := rtnl_dump_stops_at_done 0 [cexM1] [cexM2] cexDone
    (by decide) (by decide) (by decide)
  simpa using h

/-- C3 (amended): a received datagram containing an error message
aborts the dump with failure, regardless of the transport truncation
flag and of any further events; the handler is invoked for the
well-formed messages preceding the error message and never for the
error message itself; if the error message is shorter than the minimum
error-structure size (36 bytes) a truncation diagnostic is reported,
otherwise the reported diagnostic is the ambient errno value (perror),
which is not derived from the error code carried in the message. -/
theorem rtnl_dump_error_aborts (amb : Nat) (dss : List (List NlMsg))
    (pre post : List NlMsg) (e : NlMsg) (tr : Bool) (rest : List RecvEvent)
    (h1 : ∀ ms ∈ dss, ∀ m ∈ ms, m.WF ∧ m.ty ≠ 2 ∧ m.ty ≠ 3)
    (h2 : ∀ m ∈ pre, m.WF ∧ m.ty ≠ 2 ∧ m.ty ≠ 3)
    (h3 : e.WF) (h4 : e.ty = 2) :
    rtnl_dump amb
      (dss.map (fun ms => RecvEvent.data (datagramBytes ms) false)
        ++ RecvEvent.data (datagramBytes (pre ++ e :: post)) tr :: rest)
      = if e.len < 36
          then DumpResult.errMsgTrunc ((dss.flatten ++ pre).map nlmsgBytes)
          else DumpResult.errMsgReport amb
            ((dss.flatten ++ pre).map nlmsgBytes) := by
  unfold rtnl_dump
  obtain ⟨buf2, hloop⟩ := rtnl_dump_loop_clean amb dss
    (RecvEvent.data (datagramBytes (pre ++ e :: post)) tr :: rest)
    (fun _ => 0) [] h1
  rw [hloop, rtnl_dump_loop]
  simp only [nlmsgWalk_datagram_err buf2 pre post e h2 h3 h4]
  split_ifs with h <;> simp [List.map_append]

/-- Witness for C3: a short error message after one data message yields
the truncation failure with only the data message handled. -/
theorem rtnl_dump_error_aborts_witness :
    rtnl_dump 7 [RecvEvent.data (datagramBytes [cexM1, cexErrShort]) false]
      = DumpResult.errMsgTrunc [nlmsgBytes cexM1] := by
  have h := rtnl_dump_error_aborts 7 [] [cexM1] [] cexErrShort false []
    (by decide) (by decide) (by decide) (by decide)
  simpa using h

/-- Counterexample to C3 as stated: for a full-size error message the
source reports the ambient errno via perror (7 in this run), not the
error code carried in the message payload (13), which it never reads. -/
theorem rtnl_dump_error_report_ambient_cex :
    rtnl_dump 7 [RecvEvent.data (datagramBytes [cexErrFull]) false]
      = DumpResult.errMsgReport 7 []
    ∧ carriedErrCode cexErrFull = 13 ∧ (7 : Nat) ≠ 13 :=
  ⟨by decide, by decide, by decide⟩

/-- C2 is violated by the source: after a datagram flagged MSG_TRUNC
the code does re-receive, but it does not reset the message cursor to
the buffer start (only the !found_done path does), so parsing of the
next datagram resumes at the stale offset 32.  In this run the handler
is invoked with 24 bytes that are no message of the stream (8 bytes
from the middle of cexM2's payload plus 16 stale buffer bytes),
cexM2 itself is never delivered, and the dump still returns success. -/
theorem rtnl_dump_trunc_stale_cursor :
    rtnl_dump 0
      [RecvEvent.data (datagramBytes [cexM1]) true,
       RecvEvent.data (datagramBytes [cexM2]) false,
       RecvEvent.data (datagramBytes [cexDone]) false]
      = DumpResult.success [nlmsgBytes cexM1, cexGarbage]
    ∧ cexGarbage ≠ nlmsgBytes cexM2
    ∧ cexGarbage ∉ [cexM1, cexM2, cexDone].map nlmsgBytes :=
  ⟨by decide, by decide, by decide⟩

/-! ## Lemmas about the attribute walk of parse_rtattr -/

theorem rtattrBytes_length {a : RtAttr} (h : a.WF) :
    (rtattrBytes a).length = a.len := by
  obtain ⟨h1, _, _, h4⟩ := h
  simp [rtattrBytes, h4]
  omega

theorem rtattrPadded_length {a : RtAttr} (h : a.WF) :
    (rtattrPadded a).length = align4 a.len := by
  have h1 := align4_ge a.len
  simp [rtattrPadded, rtattrBytes_length h]
  omega

@[simp] theorem attrsBytes_nil : attrsBytes [] = [] := rfl

theorem attrsBytes_cons (a : RtAttr) (attrs : List RtAttr) :
    attrsBytes (a :: attrs) = rtattrPadded a ++ attrsBytes attrs := by
  simp [attrsBytes]

theorem attrsBytes_append (xs ys : List RtAttr) :
    attrsBytes (xs ++ ys) = attrsBytes xs ++ attrsBytes ys := by
  simp [attrsBytes]

theorem rta_ok_false {buf : Nat → Nat} {off : Nat} {len : Int}
    (h : len < 4) : rta_ok buf off len = false := by
  unfold rta_ok
  rw [decide_eq_false (by omega : ¬ (4 ≤ len))]
  simp

/-- The walk stops as soon as RTA_OK fails, returning the table built
so far and firing the deficit diagnostic iff the length is nonzero. -/
theorem rtaWalk_exit {buf : Nat → Nat} {mx off : Nat} {len : Int}
    {tb : Nat → Option Nat} {fuel : Nat}
    (hf : 0 < fuel) (h : rta_ok buf off len = false) :
    rtaWalk buf mx fuel tb off len = ⟨tb, decide (len ≠ 0)⟩ := by
  obtain ⟨f, rfl⟩ : ∃ f, fuel = f + 1 := ⟨fuel - 1, by omega⟩
  rw [rtaWalk, h]
  simp

/-- Master lemma: walking a run of well-formed serialised records
performs exactly the abstract store-or-skip steps (updTb), then
continues on the suffix with the given outcome. -/
theorem rtaWalk_clean (buf : Nat → Nat) (mx : Nat) (suffix : List Nat)
    (Dflag : Bool) (attrs : List RtAttr) :
    ∀ off : Nat, ∀ tb : Nat → Option Nat,
      (∀ a ∈ attrs, a.WF) →
      Agrees buf off (attrsBytes attrs ++ suffix) →
      (∀ tb2 : Nat → Option Nat, ∀ fuel2, suffix.length < fuel2 →
          rtaWalk buf mx fuel2 tb2 (off + (attrsBytes attrs).length)
            (suffix.length : Int) = ⟨tb2, Dflag⟩) →
      ∀ fuel, (attrsBytes attrs ++ suffix).length < fuel →
        rtaWalk buf mx fuel tb off ((attrsBytes attrs ++ suffix).length : Int)
          = ⟨updTb mx attrs off tb, Dflag⟩ := by
  induction attrs with
  | nil =>
    intro off tb hWF hA hcont fuel hfuel
    simpa [updTb] using hcont tb fuel (by simpa using hfuel)
  | cons a attrs ih =>
    intro off tb hWF hA hcont fuel hfuel
    obtain ⟨hl4, hl16, hlty, hlpl⟩ := hWF a (List.mem_cons_self a attrs)
    have hWF' : ∀ x ∈ attrs, x.WF :=
      fun x hx => hWF x (List.mem_cons_of_mem a hx)
    have halign_ge := align4_ge a.len
    have halign_lt := align4_lt a.len
    have hpadlen : (rtattrPadded a).length = align4 a.len :=
      rtattrPadded_length ⟨hl4, hl16, hlty, hlpl⟩
    rw [attrsBytes_cons, List.append_assoc] at hA hfuel ⊢
    have hL : (rtattrPadded a ++ (attrsBytes attrs ++ suffix)).length
        = align4 a.len + (attrsBytes attrs ++ suffix).length := by
      rw [List.length_append, hpadlen]
    have hA1 : Agrees buf off (u16le a.len ++ (u16le a.ty ++ (a.payload
        ++ (List.replicate (align4 a.len - a.len) 0
        ++ (attrsBytes attrs ++ suffix))))) := by
      simpa [rtattrPadded, rtattrBytes, List.append_assoc] using hA
    have hr16l : readU16 buf off = a.len := readU16_agrees (by omega) hA1
    have hA2 := agrees_append_right hA1
    rw [u16le_length] at hA2
    have hr16t : readU16 buf (off + 2) = a.ty := readU16_agrees hlty hA2
    have hAnext : Agrees buf (off + align4 a.len)
        (attrsBytes attrs ++ suffix) := by
      have h := agrees_append_right hA
      rwa [hpadlen] at h
    obtain ⟨f, rfl⟩ : ∃ f, fuel = f + 1 := ⟨fuel - 1, by omega⟩
    have hok : rta_ok buf off
        (((rtattrPadded a ++ (attrsBytes attrs ++ suffix)).length : Nat) : Int)
        = true := by
      unfold rta_ok
      rw [hr16l]
      simp only [Bool.and_eq_true, decide_eq_true_eq]
      refine ⟨⟨?_, by omega⟩, ?_⟩
      · exact_mod_cast Nat.le_trans (by omega) (Nat.le_of_eq hL.symm)
      · exact_mod_cast Nat.le_trans (Nat.le_trans halign_ge
          (Nat.le_add_right _ _)) (Nat.le_of_eq hL.symm)
    have hcast : (((rtattrPadded a ++ (attrsBytes attrs ++ suffix)).length
          : Nat) : Int) - (align4 a.len : Int)
        = (((attrsBytes attrs ++ suffix).length : Nat) : Int) := by
      rw [hL]
      push_cast
      ring
    have hcont' : ∀ tb2 : Nat → Option Nat, ∀ fuel2, suffix.length < fuel2 →
        rtaWalk buf mx fuel2 tb2
          ((off + align4 a.len) + (attrsBytes attrs).length)
          (suffix.length : Int) = ⟨tb2, Dflag⟩ := by
      intro tb2 fuel2 h2
      have h := hcont tb2 fuel2 h2
      rw [attrsBytes_cons, List.length_append, hpadlen,
        ← Nat.add_assoc] at h
      exact h
    have hrec := ih (off + align4 a.len)
      (if a.ty ≤ mx ∧ tb a.ty = none
        then (fun t => if t = a.ty then some off else tb t) else tb)
      hWF' hAnext hcont' f (by omega)
    rw [rtaWalk, if_pos hok, hr16t, hr16l]
    simp only [hcast, hrec]
    rw [updTb]

/-- A type already recorded in tb is never overwritten by the walk. -/
theorem updTb_some (mx : Nat) (attrs : List RtAttr) :
    ∀ off : Nat, ∀ tb : Nat → Option Nat, ∀ t v : Nat,
      tb t = some v → updTb mx attrs off tb t = some v := by
  induction attrs with
  | nil =>
    intro off tb t v h
    rw [updTb]
    exact h
  | cons a attrs ih =>
    intro off tb t v h
    rw [updTb]
    by_cases hc : a.ty ≤ mx ∧ tb a.ty = none
    · rw [if_pos hc]
      refine ih _ _ _ _ ?_
      show (if t = a.ty then some off else tb t) = some v
      by_cases ht : t = a.ty
      · rw [ht] at h
        rw [hc.2] at h
        exact absurd h (by simp)
      · rw [if_neg ht]
        exact h
    · rw [if_neg hc]
      exact ih _ _ _ _ h

/-- A type not yet recorded ends up mapped to its first occurrence (or
stays unrecorded if the type never occurs), provided it is in range. -/
theorem updTb_none (mx : Nat) (attrs : List RtAttr) :
    ∀ off : Nat, ∀ tb : Nat → Option Nat, ∀ t : Nat,
      t ≤ mx → tb t = none →
      updTb mx attrs off tb t = firstOccAux attrs off t := by
  induction attrs with
  | nil =>
    intro off tb t ht h
    rw [updTb, firstOccAux]
    exact h
  | cons a attrs ih =>
    intro off tb t ht h
    rw [updTb, firstOccAux]
    by_cases hty : a.ty = t
    · subst hty
      rw [if_pos ⟨ht, h⟩, if_pos rfl]
      refine updTb_some mx attrs _ _ _ _ ?_
      show (if a.ty = a.ty then some off else tb a.ty) = some off
      rw [if_pos rfl]
    · rw [if_neg hty]
      by_cases hc : a.ty ≤ mx ∧ tb a.ty = none
      · rw [if_pos hc]
        refine ih _ _ _ ht ?_
        show (if t = a.ty then some off else tb t) = none
        rw [if_neg (fun hh => hty hh.symm)]
        exact h
      · rw [if_neg hc]
        exact ih _ _ _ ht h

/-- firstOccAux skips a leading run of records of other types. -/
theorem firstOccAux_skip (t : Nat) (rest : List RtAttr)
    (pre : List RtAttr) :
    ∀ off : Nat, (∀ x ∈ pre, x.ty ≠ t) → (∀ x ∈ pre, x.WF) →
      firstOccAux (pre ++ rest) off t
        = firstOccAux rest (off + (attrsBytes pre).length) t := by
  induction pre with
  | nil =>
    intro off h1 h2
    simp
  | cons a pre ih =>
    intro off h1 h2
    rw [List.cons_append, firstOccAux,
      if_neg (h1 a (List.mem_cons_self a pre))]
    rw [ih (off + align4 a.len)
      (fun x hx => h1 x (List.mem_cons_of_mem a hx))
      (fun x hx => h2 x (List.mem_cons_of_mem a hx))]
    rw [attrsBytes_cons, List.length_append,
      rtattrPadded_length (h2 a (List.mem_cons_self a pre)),
      Nat.add_assoc]

/-- parse_rtattr over a serialised well-formed record run followed by
an arbitrary residue at which RTA_OK stops: the resulting table is the
abstract one and the deficit flag reflects the residual length. -/
theorem parse_rtattr_serialized (mx : Nat) (attrs : List RtAttr)
    (suffix : List Nat) (hWF : ∀ a ∈ attrs, a.WF)
    (hstop : ∀ tb2 : Nat → Option Nat, ∀ fuel2, suffix.length < fuel2 →
        rtaWalk (overwrite (fun _ => 0) (attrsBytes attrs ++ suffix)) mx
          fuel2 tb2 (attrsBytes attrs).length (suffix.length : Int)
          = ⟨tb2, decide ((suffix.length : Int) ≠ 0)⟩) :
    parse_rtattr mx (attrsBytes attrs ++ suffix)
      = ⟨updTb mx attrs 0 (fun _ => none),
          decide ((suffix.length : Int) ≠ 0)⟩ := by
  unfold parse_rtattr
  have hA : Agrees (overwrite (fun _ => 0) (attrsBytes attrs ++ suffix)) 0
      (attrsBytes attrs ++ suffix) := agrees_overwrite _ _
  have hcont : ∀ tb2 : Nat → Option Nat, ∀ fuel2, suffix.length < fuel2 →
      rtaWalk (overwrite (fun _ => 0) (attrsBytes attrs ++ suffix)) mx
        fuel2 tb2 (0 + (attrsBytes attrs).length) (suffix.length : Int)
        = ⟨tb2, decide ((suffix.length : Int) ≠ 0)⟩ := by
    simpa using hstop
  exact rtaWalk_clean (overwrite (fun _ => 0) (attrsBytes attrs ++ suffix))
    mx suffix (decide ((suffix.length : Int) ≠ 0)) attrs 0 (fun _ => none)
    hWF hA hcont ((attrsBytes attrs ++ suffix).length + 1) (by omega)

/-! ## Claim theorems C4 and C5 -/

/-- C4: in an attribute buffer holding two structurally valid records
of the same in-range type, parse_rtattr maps that type to the byte
offset of the first such record, and the later duplicate (at a strictly
larger offset) is dropped. -/
theorem parse_rtattr_first_occurrence_wins (mx : Nat)
    (pre mid post : List RtAttr) (a b : RtAttr)
    (hWF : ∀ x ∈ pre ++ a :: mid ++ b :: post, x.WF)
    (hab : b.ty = a.ty) (hmax : a.ty ≤ mx)
    (hpre : ∀ x ∈ pre, x.ty ≠ a.ty) :
    (parse_rtattr mx (attrsBytes (pre ++ a :: mid ++ b :: post))).tb a.ty
        = some (attrsBytes pre).length
    ∧ (attrsBytes pre).length < (attrsBytes (pre ++ a :: mid)).length := by
  have hWFa : a.WF := hWF a (by simp)
  have hWFpre : ∀ x ∈ pre, x.WF :=
    fun x hx => hWF x (by simp [hx])
  have hstop : ∀ tb2 : Nat → Option Nat, ∀ fuel2,
      ([] : List Nat).length < fuel2 →
      rtaWalk (overwrite (fun _ => 0)
          (attrsBytes (pre ++ a :: mid ++ b :: post) ++ ([] : List Nat))) mx
        fuel2 tb2 (attrsBytes (pre ++ a :: mid ++ b :: post)).length
        ((([] : List Nat).length : Nat) : Int)
        = ⟨tb2, decide (((([] : List Nat).length : Nat) : Int) ≠ 0)⟩ := by
    intro tb2 fuel2 hf2
    exact rtaWalk_exit (by omega) (rta_ok_false (by simp))
  have hser := parse_rtattr_serialized mx (pre ++ a :: mid ++ b :: post)
    [] hWF hstop
  rw [List.append_nil] at hser
  constructor
  · rw [hser]
    show updTb mx (pre ++ a :: mid ++ b :: post) 0 (fun _ => none) a.ty
      = some (attrsBytes pre).length
    rw [updTb_none mx _ 0 (fun _ => none) a.ty hmax rfl]
    rw [List.append_assoc]
    rw [firstOccAux_skip a.ty ((a :: mid) ++ b :: post) pre 0 hpre hWFpre]
    rw [List.cons_append, firstOccAux, if_pos rfl, Nat.zero_add]
  · rw [attrsBytes_append, attrsBytes_cons]
    have h1 := rtattrPadded_length hWFa
    have h2 := align4_ge a.len
    have h3 := hWFa.1
    simp [List.length_append]
    omega

/-- Witness for C4: two type-5 records; the table points at offset 0,
the first record, not at the duplicate at offset 8. -/
theorem parse_rtattr_first_occurrence_wins_witness :
    (parse_rtattr 10 (attrsBytes
        [⟨8, 5, [1, 2, 3, 4]⟩, ⟨8, 5, [6, 7, 8, 9]⟩])).tb 5 = some 0
    ∧ (0 : Nat) < 8 := by
  have h := parse_rtattr_first_occurrence_wins 10 [] []
    ([] : List RtAttr) ⟨8, 5, [1, 2, 3, 4]⟩ ⟨8, 5, [6, 7, 8, 9]⟩
    (by decide) (by decide) (by decide) (by simp)
  refine ⟨?_, by decide⟩
  simpa using h.1

/-- C5: an attribute buffer of valid records followed by trailing bytes
that do not form a complete record yields the deficit diagnostic, yet
the mapping of every valid record parsed before the malformed residue
is still returned; the decode never fails as a whole. -/
theorem parse_rtattr_trailing_deficit (mx : Nat) (attrs : List RtAttr)
    (tail : List Nat)
    (hWF : ∀ a ∈ attrs, a.WF) (htail : tail ≠ [])
    (hbad : rta_ok (overwrite (fun _ => 0) (attrsBytes attrs ++ tail))
        (attrsBytes attrs).length (tail.length : Int) = false) :
    (parse_rtattr mx (attrsBytes attrs ++ tail)).deficit = true
    ∧ ∀ t, t ≤ mx →
        (parse_rtattr mx (attrsBytes attrs ++ tail)).tb t
          = firstOccAux attrs 0 t := by
  have hlen : tail.length ≠ 0 := by simpa using htail
  have hstop : ∀ tb2 : Nat → Option Nat, ∀ fuel2, tail.length < fuel2 →
      rtaWalk (overwrite (fun _ => 0) (attrsBytes attrs ++ tail)) mx
        fuel2 tb2 (attrsBytes attrs).length (tail.length : Int)
        = ⟨tb2, decide ((tail.length : Int) ≠ 0)⟩ := by
    intro tb2 fuel2 hf2
    exact rtaWalk_exit (by omega) hbad
  have hser := parse_rtattr_serialized mx attrs tail hWF hstop
  constructor
  · rw [hser]
    show decide ((tail.length : Int) ≠ 0) = true
    rw [decide_eq_true_eq]
    exact_mod_cast hlen
  · intro t ht
    rw [hser]
    exact updTb_none mx attrs 0 (fun _ => none) t ht rfl

/-- Witness for C5: one valid record then a 2-byte residue: the deficit
diagnostic fires and the record is still in the table. -/
theorem parse_rtattr_trailing_deficit_witness :
    (parse_rtattr 10 (attrsBytes [⟨8, 5, [1, 2, 3, 4]⟩] ++ [1, 2])).deficit
        = true
    ∧ (parse_rtattr 10 (attrsBytes [⟨8, 5, [1, 2, 3, 4]⟩] ++ [1, 2])).tb 5
        = some 0 := by
  have h := parse_rtattr_trailing_deficit 10 [⟨8, 5, [1, 2, 3, 4]⟩] [1, 2]
    (by decide) (by decide) (by decide)
  refine ⟨h.1, ?_⟩
  have h2 := h.2 5 (by decide)
  simpa [firstOccAux] using h2

end SmcTools
